import Mathlib

/-!
Shallow embedding of the financial core of the income/debt tracker
(src/income_debt_tracker_debi_bocha_starter_app.jsx) and proofs about it.

Conventions of the embedding:
* JavaScript numbers that carry money, rates, percentages and shares are
  modelled as rationals; the source never intends floating point artefacts
  and performs only field arithmetic on these values.
* Calendar dates (ISO strings such as "2026-10-11" and the JS Date values
  parsed from them) are modelled as year/month/day triples; comparison of
  JS Date values on well formed ISO dates is the lexicographic order on
  those triples.
* JS `undefined`/absent fields are modelled with Option; the `??`
  null-coalescing operator becomes Option.getD, and JS truthiness of a
  string field (undefined and "" are falsy) gets an explicit helper.
* `Array.prototype.reduce` with an initial value is List.foldl; `Map` used
  with insertion followed by a sort over its entries is an association list
  with position-preserving update, sorted at the end.
-/

namespace Tracker

/-- Calendar date, modelling both the ISO date strings stored in rows and the
JS Date values they parse to. -/
structure Date where
  y : Nat
  m : Nat
  d : Nat
deriving DecidableEq

/-- Chronological strict order on dates: lexicographic on (year, month, day).
This is how JS compares Date values parsed from well formed ISO dates. -/
def dateLt (a b : Date) : Prop :=
  a.y < b.y ∨ (a.y = b.y ∧ (a.m < b.m ∨ (a.m = b.m ∧ a.d < b.d)))

instance (a b : Date) : Decidable (dateLt a b) := by
  unfold dateLt; exact inferInstance

/-- Non-strict chronological order on dates. -/
def dateLe (a b : Date) : Prop := ¬ dateLt b a

instance (a b : Date) : Decidable (dateLe a b) := by
  unfold dateLe; exact inferInstance

/-- Zero-based month index of a date, as used by JS getMonth/setMonth
arithmetic: year * 12 + (month - 1). -/
def mIdx (dt : Date) : Int := (dt.y : Int) * 12 + ((dt.m : Int) - 1)

/-- Date with the given absolute month index and day of month; this is the
normalisation JS Date applies after setMonth with an out-of-range argument
(the year is adjusted by floor division). -/
def dateFromIdx (i : Int) (day : Nat) : Date :=
  ⟨(i / 12).toNat, (i % 12 + 1).toNat, day⟩

/-- Month bucket key of a date. The source keys buckets by the string
`date.slice(0,7)` ("YYYY-MM"); for four-digit years and zero-padded months
the lexicographic order on those strings is the numeric order on
y * 100 + m, so we use that numeric key. -/
def monthKey (dt : Date) : Nat := dt.y * 100 + dt.m

/-- The two members hardcoded in the source ("Debi" and "Bocha"); the spec
calls Debi Party A and Bocha Party B. -/
inductive Member
  | Debi
  | Bocha
deriving DecidableEq

/-- Adjustment kind: the source stores the strings "fixed" and "percent" in
the `type` field and tests `adj.type === "percent"`. -/
inductive AdjKind
  | fixed
  | percent
deriving DecidableEq

/-- Per-row adjustment `{ id, label, type, value }`. -/
structure Adjustment where
  id : String
  label : String
  type : AdjKind
  value : ℚ
deriving DecidableEq

/-- Split mode: the source stores the strings "amount" and "percent" and
tests `row.split.mode === "amount"`. -/
inductive SplitMode
  | amount
  | percent
deriving DecidableEq

/-- Split record `{ mode, debi, bocha }`; the share fields are read with
`?? 0` in the source, so a missing share is representable. -/
structure Split where
  mode : SplitMode
  debi : Option ℚ
  bocha : Option ℚ
deriving DecidableEq

/-- Result of the split helper: `{ debiUSD, bochaUSD }`. -/
structure SplitOut where
  debiUSD : ℚ
  bochaUSD : ℚ
deriving DecidableEq

/-- A money row (invoice or expense). The two variants share one shape in
the source; fields belonging to only one variant are Options that are none
on the other variant (matching JS `undefined`). -/
structure Row where
  id : String
  date : Date
  clientId : Option String
  invoiceNo : Option String
  currency : String
  amount : ℚ
  fxRate : Option ℚ
  createdBy : Option Member
  paidBy : Option Member
  adjustments : List Adjustment
  split : Split
  notes : Option String
  description : Option String
deriving DecidableEq

/-- Client registry entry `{ id, name }`. -/
structure Client where
  id : String
  name : String
deriving DecidableEq

/-- Document meta block. -/
structure Meta where
  members : List String
  clients : List Client
  logoDataUrl : Option String
deriving DecidableEq

/-- Period preset of the filter ("6m" | "12m" | "ytd" | "all"). -/
inductive Period
  | p6m
  | p12m
  | ytd
  | all
deriving DecidableEq

/-- Document settings block. -/
structure Settings where
  period : Period
deriving DecidableEq

/-- Change log entry `{ id, ts, user, action, payload }`; the payload is an
opaque value, modelled as a string. -/
structure LogEntry where
  id : String
  ts : String
  user : String
  action : String
  payload : String
deriving DecidableEq

/-- The whole persisted document. -/
structure Db where
  meta : Meta
  settings : Settings
  invoices : List Row
  expenses : List Row
  changelog : List LogEntry
deriving DecidableEq

/-- Filter state `flt`. The source uses the string "all" for an inactive
client or creator filter; none models "all" here. -/
structure Flt where
  period : Period
  clientId : Option String
  creator : Option Member
deriving DecidableEq

/-- JS truthiness of an optional string field: undefined and "" are falsy. -/
def truthyS : Option String → Bool
  | none => false
  | some s => s ≠ ""

/-- Monetary normalizer, from the source line
`usdOf = (row) => (row.currency === "USD" ? row.amount : (row.fxRate ? row.amount / row.fxRate : 0))`.
A zero (or absent) fxRate on a non-USD row is falsy, giving the 0 branch. -/
def usdOf (row : Row) : ℚ :=
  if row.currency = "USD" then row.amount
  else
    match row.fxRate with
    | some fx => if fx ≠ 0 then row.amount / fx else 0
    | none => 0

/-- One step of the adjustment reduce: the callback
`(acc, adj) => adj.type === "percent" ? acc * (1 + adj.value/100) : acc + adj.value`. -/
def adjStep (acc : ℚ) (adj : Adjustment) : ℚ :=
  match adj.type with
  | AdjKind.percent => acc * (1 + adj.value / 100)
  | AdjKind.fixed => acc + adj.value

/-- Net USD of a row: `row.adjustments.reduce(adjStep, usdOf(row))`. -/
def netUsdOf (row : Row) : ℚ := row.adjustments.foldl adjStep (usdOf row)

/-- The adjustment engine of the spec, named `applyAdjustments` there: the
same left fold the source inlines in netUsdOf, abstracted over the base. -/
def applyAdjustments (base : ℚ) (adjs : List Adjustment) : ℚ :=
  adjs.foldl adjStep base

/-- Split helper, from the source `splitUsd`. In amount mode the stored
shares are returned verbatim; in percent mode each share is net * share/100;
a missing share is read as 0 via `?? 0`. -/
def splitUsd (row : Row) : SplitOut :=
  let net := netUsdOf row
  match row.split.mode with
  | SplitMode.amount =>
      { debiUSD := row.split.debi.getD 0, bochaUSD := row.split.bocha.getD 0 }
  | SplitMode.percent =>
      { debiUSD := net * ((row.split.debi.getD 0) / 100),
        bochaUSD := net * ((row.split.bocha.getD 0) / 100) }

/-- Debt delta of an invoice (source `debtDeltaIncome`): the balance tracked
is "Bocha owes Debi". -/
def debtDeltaIncome (inv : Row) : ℚ :=
  let s := splitUsd inv
  if inv.createdBy = some Member.Debi then -s.bochaUSD else s.debiUSD

/-- Debt delta of an expense (source `debtDeltaExpense`). -/
def debtDeltaExpense (exp : Row) : ℚ :=
  let s := splitUsd exp
  if exp.paidBy = some Member.Debi then s.bochaUSD else -s.debiUSD

/-- Current debt balance (source `debt` memo): reduce over all invoices plus
reduce over all expenses of the document. -/
def debt (db : Db) : ℚ :=
  let inc := db.invoices.foldl (fun acc r => acc + debtDeltaIncome r) 0
  let exp := db.expenses.foldl (fun acc r => acc + debtDeltaExpense r) 0
  inc + exp

/-- Summary totals record. -/
structure Totals where
  incomeUSD : ℚ
  yourShare : ℚ
  partnerShare : ℚ
deriving DecidableEq

/-- Summary totals (source `totals` memo). Note the source reduces over
`db.invoices` directly: the filter state does not enter this computation.
The current user may be null before login (`user === "Debi"` is then false,
selecting the bocha share). -/
def totals (db : Db) (user : Option Member) : Totals :=
  let incomeUSD := db.invoices.foldl (fun a r => a + max 0 (netUsdOf r)) 0
  let yourShare := db.invoices.foldl
    (fun a r =>
      a + (if user = some Member.Debi then (splitUsd r).debiUSD else (splitUsd r).bochaUSD)) 0
  { incomeUSD := incomeUSD, yourShare := yourShare,
    partnerShare := incomeUSD - yourShare }

/-- Source `lastMonths(n)`: take the current date, set the day to 1, then
setMonth(month - (n-1)); returns the resulting start together with the
current date as end. -/
def lastMonths (n : Nat) (now : Date) : Date × Date :=
  (dateFromIdx (mIdx now - ((n : Int) - 1)) 1, now)

/-- Source `dateRangeFor(period)`. The 12m and ytd branches mutate a copy of
the 6m default start: 12m does `start.setMonth(now.getMonth() - 11)`, which
keeps the year the 6m start already has; ytd resets to January 1 of the
current year; all uses the fixed lower bound 2000-01-01. -/
def dateRangeFor (now : Date) (period : Period) : Date × Date :=
  match period with
  | Period.p6m => ((lastMonths 6 now).1, now)
  | Period.p12m =>
      (dateFromIdx (((lastMonths 6 now).1.y : Int) * 12 + ((now.m : Int) - 1) - 11) 1, now)
  | Period.ytd => (⟨now.y, 1, 1⟩, now)
  | Period.all => (⟨2000, 1, 1⟩, now)

/-- Source `matchesFilters(row)`: date in range, then the client filter
(skipped when the row has no truthy clientId or the filter is "all"), then
the creator filter (skipped when the row has no createdBy field - note the
source tests `row.createdBy`, which expenses do not carry - or the filter
is "all"). -/
def matchesFilters (now : Date) (flt : Flt) (row : Row) : Bool :=
  if dateLt row.date (dateRangeFor now flt.period).1
      ∨ dateLt (dateRangeFor now flt.period).2 row.date then false
  else if truthyS row.clientId && flt.clientId.isSome
      && decide (row.clientId ≠ flt.clientId) then false
  else if row.createdBy.isSome && flt.creator.isSome
      && decide (row.createdBy ≠ flt.creator) then false
  else true

/-- Lookup in the entries of the bucket map with default 0: models
`map.get(ym) || 0` (a missing key gives undefined, hence 0; a stored 0 also
gives 0). -/
def mapGet0 : List (Nat × ℚ) → Nat → ℚ
  | [], _ => 0
  | p :: t, k => if p.1 = k then p.2 else mapGet0 t k

/-- JS `Map.prototype.set` on the entry list: an existing key keeps its
insertion position and gets the new value; a new key is appended. -/
def mapSet : List (Nat × ℚ) → Nat → ℚ → List (Nat × ℚ)
  | [], k, v => [(k, v)]
  | p :: t, k, v => if p.1 = k then (k, v) :: t else p :: mapSet t k v

/-- The `add` closure of the monthly memo:
`map.set(ym, (map.get(ym) || 0) + val)`. -/
def mapAdd (m : List (Nat × ℚ)) (k : Nat) (v : ℚ) : List (Nat × ℚ) :=
  mapSet m k (mapGet0 m k + v)

/-- Folding a whole list of keyed contributions into the bucket map. -/
def applyAll (m : List (Nat × ℚ)) (cs : List (Nat × ℚ)) : List (Nat × ℚ) :=
  cs.foldl (fun m c => mapAdd m c.1 c.2) m

/-- Order on bucket entries by key; the source sorts the entries with
`([a],[b]) => a.localeCompare(b)` on the "YYYY-MM" strings, which is this
order on the numeric keys. -/
def keyLe (a b : Nat × ℚ) : Prop := a.1 ≤ b.1

instance : DecidableRel keyLe := fun a b => inferInstanceAs (Decidable (a.1 ≤ b.1))

instance : IsTotal (Nat × ℚ) keyLe := ⟨fun a b => Nat.le_total a.1 b.1⟩

instance : IsTrans (Nat × ℚ) keyLe := ⟨fun _ _ _ => Nat.le_trans⟩

/-- Sorting the bucket entries by key. The source uses the engine sort with
a key comparator; on entry lists with pairwise distinct keys every
comparison sort produces the same (unique) sorted permutation, so insertion
sort is an exact model. -/
def sortByKey (l : List (Nat × ℚ)) : List (Nat × ℚ) := List.insertionSort keyLe l

/-- Monthly chart data (source `monthly` memo): filtered invoices add their
net, filtered expenses subtract theirs, bucketed by month key, and the
entries are sorted ascending by key. -/
def monthly (db : Db) (flt : Flt) (now : Date) : List (Nat × ℚ) :=
  let m1 := db.invoices.foldl
    (fun m r => if matchesFilters now flt r then mapAdd m (monthKey r.date) (netUsdOf r) else m)
    []
  let m2 := db.expenses.foldl
    (fun m r => if matchesFilters now flt r then mapAdd m (monthKey r.date) (-netUsdOf r) else m)
    m1
  sortByKey m2

/-- A patch handed to updateRow: the JS object spread `{ ...r, ...patch }`
overrides exactly the fields present in the patch. A field that is none
here is absent from the patch. The UI never patches the id. -/
structure Patch where
  date : Option Date
  clientId : Option (Option String)
  invoiceNo : Option (Option String)
  currency : Option String
  amount : Option ℚ
  fxRate : Option (Option ℚ)
  createdBy : Option (Option Member)
  paidBy : Option (Option Member)
  adjustments : Option (List Adjustment)
  split : Option Split
  notes : Option (Option String)
  description : Option (Option String)
deriving DecidableEq

/-- Semantics of `{ ...r, ...patch }`. -/
def applyPatch (r : Row) (p : Patch) : Row :=
  { id := r.id,
    date := p.date.getD r.date,
    clientId := p.clientId.getD r.clientId,
    invoiceNo := p.invoiceNo.getD r.invoiceNo,
    currency := p.currency.getD r.currency,
    amount := p.amount.getD r.amount,
    fxRate := p.fxRate.getD r.fxRate,
    createdBy := p.createdBy.getD r.createdBy,
    paidBy := p.paidBy.getD r.paidBy,
    adjustments := p.adjustments.getD r.adjustments,
    split := p.split.getD r.split,
    notes := p.notes.getD r.notes,
    description := p.description.getD r.description }

/-- Which collection a row action targets; the source dispatches on
`type === "invoice" ? "invoices" : "expenses"`. -/
inductive RowType
  | invoice
  | expense
deriving DecidableEq

/-- Source `updateRow(type, id, patch)`: map over the targeted collection,
spreading the patch into the row whose id matches. -/
def updateRow (db : Db) (ty : RowType) (id : String) (patch : Patch) : Db :=
  match ty with
  | RowType.invoice =>
      { db with invoices := db.invoices.map (fun r => if r.id = id then applyPatch r patch else r) }
  | RowType.expense =>
      { db with expenses := db.expenses.map (fun r => if r.id = id then applyPatch r patch else r) }

/-- Source `removeRow(type, id)`: filter the targeted collection by id. -/
def removeRow (db : Db) (ty : RowType) (id : String) : Db :=
  match ty with
  | RowType.invoice =>
      { db with invoices := db.invoices.filter (fun r => r.id ≠ id) }
  | RowType.expense =>
      { db with expenses := db.expenses.filter (fun r => r.id ≠ id) }

/-- Source `log(action, payload)`: the new entry is placed in front of the
existing changelog (`[newEntry, ...cur.changelog]`). The generated id and
timestamp are abstracted into the entry argument. -/
def logAction (db : Db) (entry : LogEntry) : Db :=
  { db with changelog := entry :: db.changelog }

/-- A 50/50 percent split, the default of the source. -/
def sampleSplit : Split := ⟨SplitMode.percent, some 50, some 50⟩

/-- Concrete invoice created by Debi (income of 1000 USD). -/
def wInvDebi : Row :=
  ⟨"w1", ⟨2026, 10, 1⟩, some "c-lions", some "INV-1", "USD", 1000, some 0,
    some Member.Debi, none, [], sampleSplit, none, none⟩

/-- Concrete invoice created by Bocha. -/
def wInvBocha : Row := { wInvDebi with id := "w2", createdBy := some Member.Bocha }

/-- Concrete expense paid by Debi (200 USD). -/
def wExpDebi : Row :=
  ⟨"w3", ⟨2026, 10, 1⟩, none, none, "USD", 200, some 0,
    none, some Member.Debi, [], sampleSplit, none, none⟩

/-- Concrete expense paid by Bocha. -/
def wExpBocha : Row := { wExpDebi with id := "w4", paidBy := some Member.Bocha }

/-- Concrete ARS invoice: 900000 ARS at 1000 ARS per USD. -/
def wUsdRow : Row :=
  ⟨"u1", ⟨2026, 10, 1⟩, some "c-tgi", some "INV-2", "ARS", 900000, some 1000,
    some Member.Bocha, none, [], sampleSplit, none, none⟩

/-- Concrete ARS invoice with fxRate 0. -/
def wUsdRow0 : Row := { wUsdRow with id := "u2", fxRate := some 0 }

/-- Concrete row with an amount-mode split (30, 70). -/
def wSplitAmt : Row :=
  ⟨"s1", ⟨2026, 1, 1⟩, none, none, "USD", 1000, some 0, none, none, [],
    ⟨SplitMode.amount, some 30, some 70⟩, none, none⟩

/-- Concrete row with a percent-mode split (40, 60) on net 1000. -/
def wSplitPct : Row :=
  { wSplitAmt with id := "s2", split := ⟨SplitMode.percent, some 40, some 60⟩ }

/-- Concrete row with a missing debi share in amount mode. -/
def wSplitMissing : Row :=
  { wSplitAmt with id := "s3", split := ⟨SplitMode.amount, none, some 70⟩ }

/-- Concrete rows and document for the debt-balance witness. -/
def cInv1 : Row :=
  ⟨"d1", ⟨2026, 9, 1⟩, some "c", some "I1", "USD", 1000, some 0,
    some Member.Debi, none, [], sampleSplit, none, none⟩

/-- Second invoice of the debt-balance witness document. -/
def cInv2 : Row := { cInv1 with id := "d2", createdBy := some Member.Bocha, amount := 300 }

/-- Expense of the debt-balance witness document. -/
def cExp1 : Row :=
  ⟨"d3", ⟨2026, 9, 2⟩, none, none, "USD", 200, some 0,
    none, some Member.Debi, [], sampleSplit, none, none⟩

/-- Document for the debt-balance witness. -/
def wDb5 : Db :=
  ⟨⟨["Debi", "Bocha"], [], none⟩, ⟨Period.p6m⟩, [cInv1, cInv2], [cExp1], []⟩

/-- Summary totals as the words of the spec describe them (section 4.5 and
claim C6): the same three aggregates, but computed over the invoices that
pass the filter. This definition follows the spec, not the source, and is
used only to compare the implemented totals against the claimed ones. -/
def totalsFilteredSpec (db : Db) (user : Option Member) (flt : Flt) (now : Date) : Totals :=
  let rows := db.invoices.filter (fun r => matchesFilters now flt r)
  let incomeUSD := (rows.map (fun r => max 0 (netUsdOf r))).sum
  let yourShare := (rows.map
    (fun r => if user = some Member.Debi then (splitUsd r).debiUSD else (splitUsd r).bochaUSD)).sum
  { incomeUSD := incomeUSD, yourShare := yourShare,
    partnerShare := incomeUSD - yourShare }

/-- Current date used by the totals counterexample. -/
def cexNow : Date := ⟨2026, 10, 11⟩

/-- Filter state with the default 6-month period and no client or creator
restriction. -/
def cexFlt : Flt := ⟨Period.p6m, none, none⟩

/-- Invoice dated far outside the 6-month window ending 2026-10-11. -/
def cexInv : Row :=
  ⟨"old1", ⟨2020, 1, 1⟩, some "c", some "I-old", "USD", 100, some 0,
    some Member.Debi, none, [], sampleSplit, none, none⟩

/-- Document holding only the out-of-range invoice. -/
def cexDb : Db := ⟨⟨["Debi", "Bocha"], [], none⟩, ⟨Period.p6m⟩, [cexInv], [], []⟩

/-- Current date used by the filter counterexample and witness. -/
def fNow : Date := ⟨2026, 10, 11⟩

/-- Filter state with an active responsible-party restriction (Debi). -/
def fFlt : Flt := ⟨Period.p6m, none, some Member.Debi⟩

/-- Expense paid by Bocha, dated inside the 6-month window. -/
def fExp : Row :=
  ⟨"x1", ⟨2026, 10, 1⟩, none, none, "USD", 50, some 0,
    none, some Member.Bocha, [], sampleSplit, none, none⟩

/-- A January current date, on which the 12-month window start is computed
from a 6-month default start that already lies in the previous year. -/
def fNowJan : Date := ⟨2026, 1, 15⟩

/-- Document used to evaluate updateRow and removeRow on the changelog. -/
def bugDb : Db :=
  ⟨⟨["Debi", "Bocha"], [], none⟩, ⟨Period.p6m⟩,
    [⟨"inv1", ⟨2026, 9, 1⟩, some "c", some "I1", "USD", 100, some 0,
      some Member.Debi, none, [], sampleSplit, none, none⟩], [],
    [⟨"l0", "2026-09-01T00:00:00Z", "Debi", "add_invoice", "inv1"⟩]⟩

/-- Patch setting the amount of a row to 5. -/
def bugPatch : Patch :=
  ⟨none, none, none, none, some 5, none, none, none, none, none, none, none⟩

/-- A change log entry as produced by the log helper. -/
def bugEntry : LogEntry := ⟨"l1", "2026-10-11T00:00:00Z", "Debi", "update_row", "inv1"⟩

/-- Reducing a list with a running rational addition equals adding the sum
of the mapped list. -/
theorem foldl_add_eq (f : Row → ℚ) (l : List Row) (a : ℚ) :
    l.foldl (fun acc r => acc + f r) a = a + (l.map f).sum := by
  induction l generalizing a with
  | nil => simp
  | cons h t ih => simp [List.foldl, ih, add_assoc]

/-- C1: the debt delta to the signed "Bocha owes Debi" balance is
-bochaShare for an income created by Debi, +debiShare for an income created
by Bocha, +bochaShare for an expense paid by Debi, and -debiShare for an
expense paid by Bocha, where the shares are the outputs of the split
helper for that row. -/
theorem debtDelta_policy (inv exp : Row) :
    (inv.createdBy = some Member.Debi → debtDeltaIncome inv = -(splitUsd inv).bochaUSD) ∧
    (inv.createdBy = some Member.Bocha → debtDeltaIncome inv = (splitUsd inv).debiUSD) ∧
    (exp.paidBy = some Member.Debi → debtDeltaExpense exp = (splitUsd exp).bochaUSD) ∧
    (exp.paidBy = some Member.Bocha → debtDeltaExpense exp = -(splitUsd exp).debiUSD) := by
  refine ⟨fun h => ?_, fun h => ?_, fun h => ?_, fun h => ?_⟩ <;>
    simp [debtDeltaIncome, debtDeltaExpense, h]

/-- Witness for debtDelta_policy at concrete rows. -/
theorem debtDelta_policy_witness :
    debtDeltaIncome wInvDebi = -(splitUsd wInvDebi).bochaUSD ∧
    debtDeltaIncome wInvBocha = (splitUsd wInvBocha).debiUSD ∧
    debtDeltaExpense wExpDebi = (splitUsd wExpDebi).bochaUSD ∧
    debtDeltaExpense wExpBocha = -(splitUsd wExpBocha).debiUSD :=
  ⟨(debtDelta_policy wInvDebi wExpDebi).1 rfl,
   (debtDelta_policy wInvBocha wExpDebi).2.1 rfl,
   (debtDelta_policy wInvDebi wExpDebi).2.2.1 rfl,
   (debtDelta_policy wInvDebi wExpBocha).2.2.2 rfl⟩

/-- C2: normalization returns the amount unchanged on USD rows, amount
divided by the rate on non-USD rows with a nonzero rate, and the sentinel 0
on non-USD rows whose rate is zero or missing. -/
theorem usdOf_spec (row : Row) :
    (row.currency = "USD" → usdOf row = row.amount) ∧
    (row.currency ≠ "USD" →
      ∀ fx : ℚ, row.fxRate = some fx → fx ≠ 0 → usdOf row = row.amount / fx) ∧
    (row.currency ≠ "USD" → (row.fxRate = none ∨ row.fxRate = some 0) → usdOf row = 0) := by
  refine ⟨fun h => ?_, fun h fx hfx hnz => ?_, fun h hfx => ?_⟩
  · simp [usdOf, h]
  · simp [usdOf, h, hfx, hnz]
  · rcases hfx with hfx | hfx <;> simp [usdOf, h, hfx]

/-- Witness for usdOf_spec: 900000 ARS at rate 1000 normalizes to 900 USD,
and a zero rate on an ARS row gives 0. -/
theorem usdOf_spec_witness : usdOf wUsdRow = 900 ∧ usdOf wUsdRow0 = 0 := by
  constructor
  · have h := (usdOf_spec wUsdRow).2.1 (by decide) 1000 rfl (by norm_num)
    rw [h]; norm_num [wUsdRow]
  · exact (usdOf_spec wUsdRow0).2.2 (by decide) (Or.inr rfl)

/-- C3: the net amount is the left fold of the ordered adjustment list over
the normalized base, where a percent adjustment multiplies the accumulator
by (1 + value/100) and a fixed adjustment adds its value; the empty list
returns the base, and base 100 yields 95 under [percent -10, fixed +5] but
94.5 under [fixed +5, percent -10]. -/
theorem applyAdjustments_spec :
    (∀ row : Row, netUsdOf row = applyAdjustments (usdOf row) row.adjustments) ∧
    (∀ base : ℚ, applyAdjustments base [] = base) ∧
    (∀ (base : ℚ) (t : List Adjustment) (i l : String) (v : ℚ),
      applyAdjustments base (⟨i, l, AdjKind.percent, v⟩ :: t)
        = applyAdjustments (base * (1 + v / 100)) t) ∧
    (∀ (base : ℚ) (t : List Adjustment) (i l : String) (v : ℚ),
      applyAdjustments base (⟨i, l, AdjKind.fixed, v⟩ :: t)
        = applyAdjustments (base + v) t) ∧
    applyAdjustments 100
      [⟨"a", "tax", AdjKind.percent, -10⟩, ⟨"b", "fee", AdjKind.fixed, 5⟩] = 95 ∧
    applyAdjustments 100
      [⟨"b", "fee", AdjKind.fixed, 5⟩, ⟨"a", "tax", AdjKind.percent, -10⟩] = 189 / 2 := by
  refine ⟨fun _ => rfl, fun _ => rfl, fun _ _ _ _ _ => rfl, fun _ _ _ _ _ => rfl, ?_, ?_⟩ <;>
    · show ((_ : ℚ) = _)
      norm_num [applyAdjustments, adjStep, List.foldl]

/-- C4: the split helper returns the stored shares verbatim in amount mode
(without consulting the net), net * share/100 in percent mode, and reads a
missing share as 0. -/
theorem splitUsd_spec (row : Row) :
    (row.split.mode = SplitMode.amount →
      splitUsd row = { debiUSD := row.split.debi.getD 0, bochaUSD := row.split.bocha.getD 0 }) ∧
    (row.split.mode = SplitMode.percent →
      splitUsd row = { debiUSD := netUsdOf row * (row.split.debi.getD 0 / 100),
                       bochaUSD := netUsdOf row * (row.split.bocha.getD 0 / 100) }) := by
  constructor <;> intro h <;> simp [splitUsd, h]

/-- Witness for splitUsd_spec: amount mode (30, 70) on net 1000 gives
(30, 70); percent mode (40, 60) on net 1000 gives (400, 600); a missing
share reads as 0. -/
theorem splitUsd_spec_witness :
    splitUsd wSplitAmt = ⟨30, 70⟩ ∧ splitUsd wSplitPct = ⟨400, 600⟩ ∧
    splitUsd wSplitMissing = ⟨0, 70⟩ := by
  refine ⟨?_, ?_, ?_⟩
  · rw [(splitUsd_spec wSplitAmt).1 rfl]; rfl
  · rw [(splitUsd_spec wSplitPct).2 rfl]
    have h1 : netUsdOf wSplitPct = 1000 := rfl
    have h2 : wSplitPct.split.debi = some 40 := rfl
    have h3 : wSplitPct.split.bocha = some 60 := rfl
    rw [h1, h2, h3]
    norm_num [SplitOut.mk.injEq, Option.getD]
  · rw [(splitUsd_spec wSplitMissing).1 rfl]; rfl

/-- C5: the current debt balance is the sum of the income debt deltas over
every invoice plus the sum of the expense debt deltas over every expense of
the full document, and permuting either transaction list leaves the balance
unchanged. -/
theorem debt_spec (db : Db) (inv2 exp2 : List Row)
    (h1 : db.invoices.Perm inv2) (h2 : db.expenses.Perm exp2) :
    debt db = (db.invoices.map debtDeltaIncome).sum
      + (db.expenses.map debtDeltaExpense).sum ∧
    debt { db with invoices := inv2, expenses := exp2 } = debt db := by
  constructor
  · unfold debt
    rw [foldl_add_eq, foldl_add_eq, zero_add, zero_add]
  · unfold debt
    rw [foldl_add_eq, foldl_add_eq, foldl_add_eq, foldl_add_eq]
    simp only [zero_add]
    rw [(h1.map debtDeltaIncome).sum_eq, (h2.map debtDeltaExpense).sum_eq]

/-- Witness for debt_spec on a concrete three-row document and a concrete
permutation of its lists. -/
theorem debt_spec_witness :
    debt wDb5 = (wDb5.invoices.map debtDeltaIncome).sum
      + (wDb5.expenses.map debtDeltaExpense).sum ∧
    debt { wDb5 with invoices := [cInv2, cInv1], expenses := [cExp1] } = debt wDb5 :=
  debt_spec wDb5 [cInv2, cInv1] [cExp1] (by decide) (by decide)

/-- C6 counterexample: the implemented summary totals ignore the filter. On
a document whose only invoice is dated 2020-01-01, with the default
6-month filter and current date 2026-10-11, the invoice fails the filter,
the spec-described filtered total income is 0, yet the implemented total
income is 100. -/
theorem totals_filter_cex :
    matchesFilters cexNow cexFlt cexInv = false ∧
    cexDb.invoices = [cexInv] ∧
    (totalsFilteredSpec cexDb (some Member.Debi) cexFlt cexNow).incomeUSD = 0 ∧
    (totals cexDb (some Member.Debi)).incomeUSD = 100 := by
  have hm : matchesFilters cexNow cexFlt cexInv = false := by decide
  refine ⟨hm, rfl, ?_, ?_⟩
  · simp [totalsFilteredSpec, cexDb, List.filter, hm]
  · have hnet : netUsdOf cexInv = 100 := rfl
    simp [totals, cexDb, List.foldl, hnet]

/-- C6 amended: the three summary totals are computed over all income
transactions of the document, with the filter playing no role: total
income is the sum of max(0, net) over every invoice, the current user
share is the sum of that user split output over every invoice, and the
partner share is total income minus the user share. -/
theorem totals_spec (db : Db) (user : Option Member) :
    (totals db user).incomeUSD = (db.invoices.map (fun r => max 0 (netUsdOf r))).sum ∧
    (totals db user).yourShare = (db.invoices.map
      (fun r => if user = some Member.Debi then (splitUsd r).debiUSD
        else (splitUsd r).bochaUSD)).sum ∧
    (totals db user).partnerShare
      = (totals db user).incomeUSD - (totals db user).yourShare := by
  have ht : totals db user =
      { incomeUSD := (db.invoices.map (fun r => max 0 (netUsdOf r))).sum,
        yourShare := (db.invoices.map
          (fun r => if user = some Member.Debi then (splitUsd r).debiUSD
            else (splitUsd r).bochaUSD)).sum,
        partnerShare := (db.invoices.map (fun r => max 0 (netUsdOf r))).sum
          - (db.invoices.map
            (fun r => if user = some Member.Debi then (splitUsd r).debiUSD
              else (splitUsd r).bochaUSD)).sum } := by
    simp only [totals]
    rw [foldl_add_eq, foldl_add_eq, zero_add, zero_add]
  rw [ht]
  exact ⟨rfl, rfl, rfl⟩

/-- C7 counterexample: first, an expense paid by Bocha passes an active
responsible-party filter for Debi, because the source checks only the
createdBy field, which expenses do not carry; second, with current date
2026-01-15 the 12-month range start computed by the source is 2024-02-01,
not the first day of the month 11 months before the current month
(2025-02-01). -/
theorem matchesFilters_cex :
    (fExp.paidBy = some Member.Bocha ∧ fFlt.creator = some Member.Debi ∧
      matchesFilters fNow fFlt fExp = true) ∧
    ((dateRangeFor fNowJan Period.p12m).1 = ⟨2024, 2, 1⟩ ∧
      dateFromIdx (mIdx fNowJan - 11) 1 = ⟨2025, 2, 1⟩ ∧
      (dateRangeFor fNowJan Period.p12m).1 ≠ dateFromIdx (mIdx fNowJan - 11) 1) := by
  exact ⟨⟨rfl, rfl, by decide⟩, by decide, by decide, by decide⟩

/-- A transaction passes the filter iff its date lies in the inclusive
range, the client filter is inactive or inapplicable or matched, and the
creator filter is inactive or inapplicable or matched. The creator filter
reads only the createdBy field, so rows without one (expenses) always pass
it. -/
theorem matchesFilters_iff (now : Date) (flt : Flt) (row : Row) :
    matchesFilters now flt row = true ↔
      (dateLe (dateRangeFor now flt.period).1 row.date ∧
        dateLe row.date (dateRangeFor now flt.period).2 ∧
        (truthyS row.clientId = false ∨ flt.clientId = none
          ∨ row.clientId = flt.clientId) ∧
        (row.createdBy = none ∨ flt.creator = none
          ∨ row.createdBy = flt.creator)) := by
  unfold matchesFilters
  by_cases hd : dateLt row.date (dateRangeFor now flt.period).1
      ∨ dateLt (dateRangeFor now flt.period).2 row.date
  · rw [if_pos hd]
    refine iff_of_false (by simp) ?_
    rintro ⟨ha, hb, -, -⟩
    exact (not_or.mpr ⟨ha, hb⟩) hd
  · rw [if_neg hd]
    rw [not_or] at hd
    obtain ⟨hd1, hd2⟩ := hd
    by_cases hc : (truthyS row.clientId && flt.clientId.isSome
        && decide (row.clientId ≠ flt.clientId)) = true
    · rw [if_pos hc]
      simp only [Bool.and_eq_true, decide_eq_true_eq] at hc
      obtain ⟨⟨ht, hs⟩, hne⟩ := hc
      refine iff_of_false (by simp) ?_
      rintro ⟨-, -, hcl, -⟩
      rcases hcl with hcl | hcl | hcl
      · rw [ht] at hcl; cases hcl
      · rw [hcl] at hs; simp at hs
      · exact hne hcl
    · rw [if_neg hc]
      by_cases hcr : (row.createdBy.isSome && flt.creator.isSome
          && decide (row.createdBy ≠ flt.creator)) = true
      · rw [if_pos hcr]
        simp only [Bool.and_eq_true, decide_eq_true_eq] at hcr
        obtain ⟨⟨hu, hs⟩, hne⟩ := hcr
        refine iff_of_false (by simp) ?_
        rintro ⟨-, -, -, hcb⟩
        rcases hcb with hcb | hcb | hcb
        · rw [hcb] at hu; simp at hu
        · rw [hcb] at hs; simp at hs
        · exact hne hcb
      · rw [if_neg hcr]
        simp only [Bool.and_eq_true, decide_eq_true_eq, not_and] at hc hcr
        refine iff_of_true rfl ⟨hd1, hd2, ?_, ?_⟩
        · rcases Bool.eq_false_or_eq_true (truthyS row.clientId) with ht | ht
          · cases hfc : flt.clientId with
            | none => exact Or.inr (Or.inl rfl)
            | some c =>
                refine Or.inr (Or.inr ?_)
                by_contra hne
                exact hc ⟨ht, by rw [hfc]; rfl⟩ (by rw [hfc]; exact hne)
          · exact Or.inl ht
        · cases hcb : row.createdBy with
          | none => exact Or.inl rfl
          | some mb =>
              cases hfr : flt.creator with
              | none => exact Or.inr (Or.inl rfl)
              | some mc =>
                  refine Or.inr (Or.inr ?_)
                  by_contra hne
                  exact hcr ⟨by rw [hcb]; rfl, by rw [hfr]; rfl⟩
                    (by rw [hcb, hfr]; exact hne)

/-- C7 amended: a transaction passes the filter iff its date falls in the
inclusive range AND (no client filter, or the row has no truthy client
reference, or it matches) AND (no creator filter, or the row carries no
createdBy field - so the creator filter never applies to expenses - or its
createdBy matches); the 6-month preset starts on the first day of the
month 5 months before the current month and ends at the current date; the
12-month preset also ends at the current date but starts on the first day
of the month 11 months before the current month only when the current
month is June or later, and a further 12 months earlier (23 months before)
for current months January through May. -/
theorem matchesFilters_spec (now : Date) (flt : Flt) (row : Row)
    (hm1 : 1 ≤ now.m) (hm2 : now.m ≤ 12) (hy : 1 ≤ now.y) :
    (matchesFilters now flt row = true ↔
      (dateLe (dateRangeFor now flt.period).1 row.date ∧
        dateLe row.date (dateRangeFor now flt.period).2 ∧
        (truthyS row.clientId = false ∨ flt.clientId = none
          ∨ row.clientId = flt.clientId) ∧
        (row.createdBy = none ∨ flt.creator = none
          ∨ row.createdBy = flt.creator))) ∧
    dateRangeFor now Period.p6m = (dateFromIdx (mIdx now - 5) 1, now) ∧
    (dateRangeFor now Period.p12m).1
      = dateFromIdx (mIdx now - (if 6 ≤ now.m then 11 else 23)) 1 ∧
    (dateRangeFor now Period.p12m).2 = now := by
  refine ⟨matchesFilters_iff now flt row, rfl, ?_, rfl⟩
  show dateFromIdx (((lastMonths 6 now).1.y : Int) * 12 + ((now.m : Int) - 1) - 11) 1 = _
  congr 1
  have hy0 : (lastMonths 6 now).1.y = ((mIdx now - 5) / 12).toNat := rfl
  rw [hy0]
  unfold mIdx
  rcases le_or_lt 6 now.m with h | h
  · rw [if_pos h]
    omega
  · rw [if_neg (by omega)]
    omega

/-- Witness for matchesFilters_spec at the concrete date 2026-10-11. -/
theorem matchesFilters_spec_witness :
    dateRangeFor fNow Period.p6m = (dateFromIdx (mIdx fNow - 5) 1, fNow) ∧
    (dateRangeFor fNow Period.p12m).1
      = dateFromIdx (mIdx fNow - (if 6 ≤ fNow.m then 11 else 23)) 1 ∧
    (matchesFilters fNow fFlt fExp = true ↔
      (dateLe (dateRangeFor fNow fFlt.period).1 fExp.date ∧
        dateLe fExp.date (dateRangeFor fNow fFlt.period).2 ∧
        (truthyS fExp.clientId = false ∨ fFlt.clientId = none
          ∨ fExp.clientId = fFlt.clientId) ∧
        (fExp.createdBy = none ∨ fFlt.creator = none
          ∨ fExp.createdBy = fFlt.creator))) :=
  ⟨(matchesFilters_spec fNow fFlt fExp (by decide) (by decide) (by decide)).2.1,
   (matchesFilters_spec fNow fFlt fExp (by decide) (by decide) (by decide)).2.2.1,
   (matchesFilters_spec fNow fFlt fExp (by decide) (by decide) (by decide)).1⟩

/-- C9: evaluation of the row actions at a concrete document. Updating the
amount of invoice inv1 and deleting inv1 both change the invoice list but
leave the changelog exactly as it was: no change-log entry is created,
although the in-source documentation states the changelog keeps every
action. The log helper itself places the new entry in front of the
existing entries, preserving all of them. -/
theorem updateRow_no_log :
    (updateRow bugDb RowType.invoice "inv1" bugPatch).changelog = bugDb.changelog ∧
    (removeRow bugDb RowType.invoice "inv1").changelog = bugDb.changelog ∧
    (updateRow bugDb RowType.invoice "inv1" bugPatch).invoices ≠ bugDb.invoices ∧
    (removeRow bugDb RowType.invoice "inv1").invoices ≠ bugDb.invoices ∧
    (logAction bugDb bugEntry).changelog = bugEntry :: bugDb.changelog :=
  ⟨rfl, rfl, by decide, by decide, rfl⟩

/-- C10: updateRow rewrites only the targeted collection, replacing exactly
the rows whose id matches by the patched row, and the patch overrides
exactly the fields it names (an absent field keeps the row value, and the
id is never patched); removeRow keeps exactly the rows of the targeted
collection whose id differs; in both cases meta, settings, the changelog
and the other collection are untouched. -/
theorem updateRow_removeRow_frame (db : Db) (id : String) (p : Patch) :
    (∀ ty, (updateRow db ty id p).meta = db.meta
      ∧ (updateRow db ty id p).settings = db.settings
      ∧ (updateRow db ty id p).changelog = db.changelog
      ∧ (removeRow db ty id).meta = db.meta
      ∧ (removeRow db ty id).settings = db.settings
      ∧ (removeRow db ty id).changelog = db.changelog) ∧
    (updateRow db RowType.invoice id p).expenses = db.expenses ∧
    (updateRow db RowType.expense id p).invoices = db.invoices ∧
    (updateRow db RowType.invoice id p).invoices
      = db.invoices.map (fun r => if r.id = id then applyPatch r p else r) ∧
    (updateRow db RowType.expense id p).expenses
      = db.expenses.map (fun r => if r.id = id then applyPatch r p else r) ∧
    (removeRow db RowType.invoice id).expenses = db.expenses ∧
    (removeRow db RowType.expense id).invoices = db.invoices ∧
    (removeRow db RowType.invoice id).invoices
      = db.invoices.filter (fun r => r.id ≠ id) ∧
    (removeRow db RowType.expense id).expenses
      = db.expenses.filter (fun r => r.id ≠ id) ∧
    (∀ r, r ∈ (removeRow db RowType.invoice id).invoices
      ↔ (r ∈ db.invoices ∧ r.id ≠ id)) ∧
    (∀ r, r ∈ (removeRow db RowType.expense id).expenses
      ↔ (r ∈ db.expenses ∧ r.id ≠ id)) ∧
    (∀ r : Row, (applyPatch r p).id = r.id
      ∧ (applyPatch r p).date = p.date.getD r.date
      ∧ (applyPatch r p).clientId = p.clientId.getD r.clientId
      ∧ (applyPatch r p).invoiceNo = p.invoiceNo.getD r.invoiceNo
      ∧ (applyPatch r p).currency = p.currency.getD r.currency
      ∧ (applyPatch r p).amount = p.amount.getD r.amount
      ∧ (applyPatch r p).fxRate = p.fxRate.getD r.fxRate
      ∧ (applyPatch r p).createdBy = p.createdBy.getD r.createdBy
      ∧ (applyPatch r p).paidBy = p.paidBy.getD r.paidBy
      ∧ (applyPatch r p).adjustments = p.adjustments.getD r.adjustments
      ∧ (applyPatch r p).split = p.split.getD r.split
      ∧ (applyPatch r p).notes = p.notes.getD r.notes
      ∧ (applyPatch r p).description = p.description.getD r.description) := by
  refine ⟨?_, rfl, rfl, rfl, rfl, rfl, rfl, rfl, rfl, ?_, ?_, ?_⟩
  · intro ty
    cases ty <;> exact ⟨rfl, rfl, rfl, rfl, rfl, rfl⟩
  · intro r
    simp [removeRow, List.mem_filter]
  · intro r
    simp [removeRow, List.mem_filter]
  · intro r
    exact ⟨rfl, rfl, rfl, rfl, rfl, rfl, rfl, rfl, rfl, rfl, rfl, rfl, rfl⟩

/-- Lookup after a position-preserving update. -/
theorem mapGet0_mapSet (m : List (Nat × ℚ)) (k : Nat) (v : ℚ) (k2 : Nat) :
    mapGet0 (mapSet m k v) k2 = if k2 = k then v else mapGet0 m k2 := by
  induction m with
  | nil =>
      by_cases h : k2 = k
      · subst h; simp [mapSet, mapGet0]
      · simp [mapSet, mapGet0, h, Ne.symm h]
  | cons p t ih =>
      by_cases hp : p.1 = k
      · simp only [mapSet, if_pos hp]
        by_cases h : k2 = k
        · subst h; simp [mapGet0]
        · simp [mapGet0, h, Ne.symm h, hp]
      · simp only [mapSet, if_neg hp]
        by_cases h : k2 = k
        · subst h
          have hp2 : p.1 ≠ k2 := hp
          simp [mapGet0, hp2, ih]
        · by_cases hq : p.1 = k2
          · simp [mapGet0, hq, h]
          · simp [mapGet0, hq, h, ih]

/-- Key membership after a position-preserving update. -/
theorem mem_keys_mapSet (m : List (Nat × ℚ)) (k : Nat) (v : ℚ) (k2 : Nat) :
    k2 ∈ (mapSet m k v).map Prod.fst ↔ (k2 ∈ m.map Prod.fst ∨ k2 = k) := by
  induction m with
  | nil => simp [mapSet]
  | cons p t ih =>
      by_cases hp : p.1 = k
      · simp only [mapSet, if_pos hp]
        subst hp
        simp only [List.map_cons, List.mem_cons]
        tauto
      · simp only [mapSet, if_neg hp]
        simp only [List.map_cons, List.mem_cons, ih]
        tauto

/-- A position-preserving update keeps the keys pairwise distinct. -/
theorem nodup_keys_mapSet (m : List (Nat × ℚ)) (k : Nat) (v : ℚ)
    (h : (m.map Prod.fst).Nodup) : ((mapSet m k v).map Prod.fst).Nodup := by
  induction m with
  | nil => simp [mapSet]
  | cons p t ih =>
      simp only [List.map_cons, List.nodup_cons] at h
      obtain ⟨hni, hnd⟩ := h
      by_cases hp : p.1 = k
      · simp only [mapSet, if_pos hp, List.map_cons, List.nodup_cons]
        exact ⟨by rw [← hp]; exact hni, hnd⟩
      · simp only [mapSet, if_neg hp, List.map_cons, List.nodup_cons]
        refine ⟨?_, ih hnd⟩
        rw [mem_keys_mapSet]
        rintro (hin | hin)
        · exact hni hin
        · exact hp hin

/-- Lookup after folding a list of keyed contributions into the map: the
stored value grows by the sum of the contributions carrying that key. -/
theorem mapGet0_applyAll (cs : List (Nat × ℚ)) (m : List (Nat × ℚ)) (k : Nat) :
    mapGet0 (applyAll m cs) k
      = mapGet0 m k + ((cs.filter (fun c => c.1 = k)).map Prod.snd).sum := by
  induction cs generalizing m with
  | nil => simp [applyAll]
  | cons c t ih =>
      have hstep : applyAll m (c :: t) = applyAll (mapAdd m c.1 c.2) t := rfl
      rw [hstep, ih]
      unfold mapAdd
      rw [mapGet0_mapSet]
      by_cases h : c.1 = k
      · rw [if_pos h.symm, List.filter_cons]
        simp [h]
        ring
      · rw [if_neg (fun hh => h hh.symm), List.filter_cons]
        simp [h]

/-- Key membership after folding a list of contributions. -/
theorem mem_keys_applyAll (cs : List (Nat × ℚ)) (m : List (Nat × ℚ)) (k : Nat) :
    k ∈ (applyAll m cs).map Prod.fst
      ↔ (k ∈ m.map Prod.fst ∨ k ∈ cs.map Prod.fst) := by
  induction cs generalizing m with
  | nil => simp [applyAll]
  | cons c t ih =>
      have hstep : applyAll m (c :: t) = applyAll (mapAdd m c.1 c.2) t := rfl
      rw [hstep, ih]
      unfold mapAdd
      rw [mem_keys_mapSet]
      simp
      tauto

/-- Folding contributions keeps the keys pairwise distinct. -/
theorem nodup_keys_applyAll (cs : List (Nat × ℚ)) (m : List (Nat × ℚ))
    (h : (m.map Prod.fst).Nodup) : ((applyAll m cs).map Prod.fst).Nodup := by
  induction cs generalizing m with
  | nil => exact h
  | cons c t ih =>
      have hstep : applyAll m (c :: t) = applyAll (mapAdd m c.1 c.2) t := rfl
      rw [hstep]
      exact ih _ (nodup_keys_mapSet _ _ _ h)

/-- In a map with pairwise distinct keys, entry membership is key
membership plus the lookup value. -/
theorem mem_of_nodup_keys (m : List (Nat × ℚ)) (h : (m.map Prod.fst).Nodup)
    (k : Nat) (v : ℚ) :
    (k, v) ∈ m ↔ (k ∈ m.map Prod.fst ∧ mapGet0 m k = v) := by
  induction m with
  | nil => simp [mapGet0]
  | cons p t ih =>
      obtain ⟨p1, p2⟩ := p
      simp only [List.map_cons, List.nodup_cons] at h
      obtain ⟨hni, hnd⟩ := h
      simp only [List.mem_cons, List.map_cons]
      by_cases hk : k = p1
      · subst hk
        have hnt : (k, v) ∉ t := fun hmem => hni (List.mem_map.mpr ⟨(k, v), hmem, rfl⟩)
        have hget : mapGet0 ((k, p2) :: t) k = p2 := by simp [mapGet0]
        constructor
        · rintro (hp | hp)
          · injection hp with h1 h2
            exact ⟨Or.inl rfl, by rw [hget]; exact h2.symm⟩
          · exact absurd hp hnt
        · rintro ⟨-, hv⟩
          rw [hget] at hv
          subst hv
          exact Or.inl rfl
      · have hget : mapGet0 ((p1, p2) :: t) k = mapGet0 t k := by
          simp only [mapGet0]
          rw [if_neg (fun hh => hk hh.symm)]
        rw [hget]
        constructor
        · rintro (hp | hp)
          · injection hp with h1 h2
            exact absurd h1 hk
          · have hh := (ih hnd).mp hp
            exact ⟨Or.inr hh.1, hh.2⟩
        · rintro ⟨hp | hp, hv⟩
          · exact absurd hp hk
          · exact Or.inr ((ih hnd).mpr ⟨hp, hv⟩)

/-- The conditional fold the monthly memo runs over one row list equals
folding the keyed contributions of the rows that pass the filter. -/
theorem foldl_if_applyAll (rows : List Row) (pass : Row → Bool) (key : Row → Nat)
    (val : Row → ℚ) (m : List (Nat × ℚ)) :
    rows.foldl (fun m r => if pass r then mapAdd m (key r) (val r) else m) m
      = applyAll m ((rows.filter pass).map (fun r => (key r, val r))) := by
  induction rows generalizing m with
  | nil => rfl
  | cons r t ih =>
      by_cases hp : pass r
      · simp only [List.foldl_cons, List.filter_cons, hp, if_true, List.map_cons]
        rw [ih]
        rfl
      · simp [List.foldl_cons, List.filter_cons, hp, ih]

/-- Folding an appended contribution list is folding one after the other. -/
theorem applyAll_append (m : List (Nat × ℚ)) (a b : List (Nat × ℚ)) :
    applyAll (applyAll m a) b = applyAll m (a ++ b) :=
  (List.foldl_append _ _ _ _).symm

/-- Filtering a mapped list is mapping the filtered list. -/
theorem filter_map_comm {α β : Type} (l : List α) (f : α → β) (p : β → Bool) :
    (l.map f).filter p = (l.filter (fun a => p (f a))).map f := by
  induction l with
  | nil => rfl
  | cons h t ih => by_cases hp : p (f h) <;> simp [hp, ih]

/-- Two successive filters are one filter with the conjoined predicate. -/
theorem filter_filter_bool {α : Type} (l : List α) (p q : α → Bool) :
    (l.filter p).filter q = l.filter (fun a => p a && q a) := by
  induction l with
  | nil => rfl
  | cons h t ih =>
      by_cases hp : p h <;> by_cases hq : q h <;>
        simp [List.filter_cons, hp, hq, ih]

/-- Summing pointwise negations negates the sum. -/
theorem sum_map_neg {α : Type} (l : List α) (f : α → ℚ) :
    (l.map (fun a => -f a)).sum = -((l.map f).sum) := by
  induction l with
  | nil => simp
  | cons h t ih => simp [ih]; ring

/-- The bucket sort is a permutation of the entry list. -/
theorem sortByKey_perm (l : List (Nat × ℚ)) : (sortByKey l).Perm l :=
  List.perm_insertionSort keyLe l

/-- The bucket sort orders entries by key. -/
theorem sortByKey_sorted (l : List (Nat × ℚ)) : (sortByKey l).Sorted keyLe :=
  List.sorted_insertionSort keyLe l

/-- C8: the monthly chart data buckets exactly the filtered transactions by
the month of their date; an entry for month k exists iff some filtered
invoice or expense falls in that month (months without transactions are
omitted); its value is the sum of the net amounts of the filtered invoices
of that month minus the same sum for expenses; and the entries are emitted
in strictly ascending month order. -/
theorem monthly_spec (db : Db) (flt : Flt) (now : Date) :
    (monthly db flt now).Pairwise (fun a b => a.1 < b.1) ∧
    (∀ k v, ((k, v) ∈ monthly db flt now ↔
      ((∃ r ∈ db.invoices, matchesFilters now flt r = true ∧ monthKey r.date = k) ∨
       (∃ r ∈ db.expenses, matchesFilters now flt r = true ∧ monthKey r.date = k)) ∧
      v = ((db.invoices.filter
            (fun r => matchesFilters now flt r && decide (monthKey r.date = k))).map
              netUsdOf).sum
        - ((db.expenses.filter
            (fun r => matchesFilters now flt r && decide (monthKey r.date = k))).map
              netUsdOf).sum)) := by
  set csI := (db.invoices.filter (fun r => matchesFilters now flt r)).map
    (fun r => (monthKey r.date, netUsdOf r)) with hcsI
  set csE := (db.expenses.filter (fun r => matchesFilters now flt r)).map
    (fun r => (monthKey r.date, -netUsdOf r)) with hcsE
  have hm2 : monthly db flt now = sortByKey (applyAll [] (csI ++ csE)) := by
    simp only [monthly]
    rw [foldl_if_applyAll, foldl_if_applyAll, applyAll_append]
  have hnodup : ((applyAll [] (csI ++ csE)).map Prod.fst).Nodup :=
    nodup_keys_applyAll _ _ (by simp)
  constructor
  · rw [hm2]
    have hs : (sortByKey (applyAll [] (csI ++ csE))).Sorted keyLe := sortByKey_sorted _
    have hperm := sortByKey_perm (applyAll [] (csI ++ csE))
    have hnd2 : ((sortByKey (applyAll [] (csI ++ csE))).map Prod.fst).Nodup :=
      ((hperm.map Prod.fst).nodup_iff).mpr hnodup
    have hne : (sortByKey (applyAll [] (csI ++ csE))).Pairwise
        (fun a b => a.1 ≠ b.1) := by
      rw [List.Nodup, List.pairwise_map] at hnd2
      exact hnd2
    exact (List.Pairwise.and hs hne).imp (fun h => lt_of_le_of_ne h.1 h.2)
  · intro k v
    have hkeys : k ∈ (csI ++ csE).map Prod.fst ↔
        ((∃ r ∈ db.invoices, matchesFilters now flt r = true ∧ monthKey r.date = k) ∨
         (∃ r ∈ db.expenses, matchesFilters now flt r = true ∧ monthKey r.date = k)) := by
      rw [hcsI, hcsE]
      simp only [List.map_append, List.mem_append, List.map_map, List.mem_map,
        Function.comp, List.mem_filter]
      constructor
      · rintro (⟨r, ⟨hr, hf⟩, hk⟩ | ⟨r, ⟨hr, hf⟩, hk⟩)
        · exact Or.inl ⟨r, hr, hf, hk⟩
        · exact Or.inr ⟨r, hr, hf, hk⟩
      · rintro (⟨r, hr, hf, hk⟩ | ⟨r, hr, hf, hk⟩)
        · exact Or.inl ⟨r, ⟨hr, hf⟩, hk⟩
        · exact Or.inr ⟨r, ⟨hr, hf⟩, hk⟩
    have hval : (((csI ++ csE).filter (fun c => c.1 = k)).map Prod.snd).sum
        = ((db.invoices.filter
              (fun r => matchesFilters now flt r && decide (monthKey r.date = k))).map
                netUsdOf).sum
          - ((db.expenses.filter
              (fun r => matchesFilters now flt r && decide (monthKey r.date = k))).map
                netUsdOf).sum := by
      rw [hcsI, hcsE, List.filter_append, List.map_append, List.sum_append]
      rw [filter_map_comm, filter_map_comm, List.map_map, List.map_map]
      rw [filter_filter_bool, filter_filter_bool]
      have hsnd1 : (Prod.snd ∘ fun r : Row => (monthKey r.date, netUsdOf r)) = netUsdOf := rfl
      have hsnd2 : (Prod.snd ∘ fun r : Row => (monthKey r.date, -netUsdOf r))
          = (fun r => -netUsdOf r) := rfl
      rw [hsnd1, hsnd2, sum_map_neg]
      ring
    rw [hm2, (sortByKey_perm _).mem_iff, mem_of_nodup_keys _ hnodup,
      mem_keys_applyAll, mapGet0_applyAll, hval]
    have h0 : mapGet0 ([] : List (Nat × ℚ)) k = 0 := rfl
    rw [h0, zero_add]
    simp only [List.map_nil, List.not_mem_nil, false_or]
    rw [hkeys]
    constructor
    · rintro ⟨h1, h2⟩
      exact ⟨h1, h2.symm⟩
    · rintro ⟨h1, h2⟩
      exact ⟨h1, h2.symm⟩

end Tracker
